import Mathlib

/-!
Verification of the Downloads organizer (`src/organize.py`).

Shallow embedding: file and directory names are lists of characters
(`Str`), the category table is an association list in insertion order
(Python dicts iterate in insertion order), and the filesystem visible to
the program is one target directory with its immediate children plus the
contents of its immediate subdirectories.  Each operation of the
`DirectoryOrganizer` class is translated into a state-passing function
returning the new state together with the first error raised (`none` when
the call completed), mirroring Python's fail-fast exception behaviour.
-/

namespace Org

abbrev Str := List Char

/-- Model of `str.lower()` on one character, for the ASCII range that the program's
extension tables use: `'A'..'Z'` map to `'a'..'z'`, everything else is
kept (Python's `str.lower` on the ASCII letters does exactly this). -/
def charLower (c : Char) : Char :=
  if 65 ≤ c.toNat ∧ c.toNat ≤ 90 then Char.ofNat (c.toNat + 32) else c

/-- Model of `str.lower()` over a whole name. -/
def lowerStr (s : Str) : Str := s.map charLower

/-- Model of `pathlib.PurePath.suffix` of a single file name `name`:
with `i = name.rfind('.')`, the result is `name[i:]` when
`0 < i < len(name) - 1` and the empty string otherwise.  Here `post` is
the run of characters strictly after the last dot (empty when there is no
dot), so the last dot sits at index `name.length - post.length - 1`. -/
def suffix (name : Str) : Str :=
  let post := name.reverse.takeWhile (fun c => c ≠ '.')
  if '.' ∈ name ∧ post ≠ [] ∧ post.length + 1 < name.length then
    '.' :: post.reverse
  else []

/-- Python `str.split(' ')`: split at every single space character,
keeping empty fields (the source applies `methodcaller('split', ' ')`
to each raw extension string via `valmap`). -/
def splitSp : Str → List Str
  | [] => [[]]
  | c :: rest =>
    match splitSp rest with
    | [] => [[c]]
    | h :: t => if c = ' ' then [] :: h :: t else (c :: h) :: t

/-- A category mapping: list of (folder name, extension list) in
insertion order, the shape of `ORG_DIRECTORIES`. -/
abbrev Mapping := List (Str × List Str)

def keys (m : Mapping) : List Str := m.map Prod.fst

/-- Raw `_ORG_DIRECTORIES` strings, exactly as concatenated in the source. -/
def documentsRaw : Str :=
  (".oxps .epub .pages .docx .doc .fdf .ods .odt .pwi .xsn .xps .dotx .docm .dox .rvg .rtf .rtfd .wpd .csv .xls .xlsx .ppt pptx").data

def plaintextRaw : Str := (".txt .in .out").data

def pdfsRaw : Str := (".pdf").data

def imagesRaw : Str :=
  (".jpeg .jpg .tif .tiff .gif .bmp .png .bpg svg .heif .psd").data

def audioRaw : Str :=
  (".aac .aa .aac .dvf .m4a .m4b .m4p .mp3 .msv .ogg .oga .raw .vox .wav .wma").data

def videosRaw : Str :=
  (".avi .flv .wmv .mov .mp4 .webm .vob .mng .qt .mpg .mpeg .3gp .mkv").data

def archivesRaw : Str :=
  (".a .ar .cpio .iso .tar .gz .rz .7z .dmg .rar .xar .zip").data

def scriptsRaw : Str := (".sh .zsh .py").data

/-- The table `ORG_DIRECTORIES = valmap(space_splitter, _ORG_DIRECTORIES)`, in the
dict's insertion order. -/
def ORG_DIRECTORIES : Mapping :=
  [ (("Documents").data, splitSp documentsRaw)
  , (("Plaintext").data, splitSp plaintextRaw)
  , (("PDFs").data, splitSp pdfsRaw)
  , (("Images").data, splitSp imagesRaw)
  , (("Audio").data, splitSp audioRaw)
  , (("Videos").data, splitSp videosRaw)
  , (("Archives").data, splitSp archivesRaw)
  , (("Scripts").data, splitSp scriptsRaw) ]

def otherName : Str := ("Other").data

def foldersName : Str := ("FOLDERS").data

/-- Errors surfaced by the filesystem primitives: `fileNotFound` for
Python's `FileNotFoundError` (ENOENT: rename source missing, or rename
into a destination directory that does not exist at all), `fileExists`
for `FileExistsError` (mkdir over an existing non-directory),
`notADirectory` for `NotADirectoryError` (ENOTDIR: the rename
destination's parent exists but is a regular file, or a directory is
renamed onto an existing file), and `dirNotEmpty` for the OSError with
ENOTEMPTY raised when a directory is renamed onto an existing non-empty
directory. -/
inductive Err where
  | fileNotFound : Err
  | fileExists : Err
  | notADirectory : Err
  | dirNotEmpty : Err
deriving DecidableEq, Repr

/-- The filesystem state the program can observe and mutate: the regular
files and the subdirectories that are immediate children of the target
directory, plus the contents of each (sub)directory, keyed by the
directory's name (names are unique in every scenario considered). -/
structure FS where
  rootFiles : List Str
  rootDirs : List Str
  subFiles : Str → List Str
  subDirs : Str → List Str

/-- Pointwise update of a directory-contents map. -/
def updMap (g : Str → List Str) (d : Str) (v : List Str) : Str → List Str :=
  fun x => if x = d then v else g x

/-- Model of `Path(target_dir, x).mkdir(exist_ok=True)`: no-op on an existing
directory, `FileExistsError` when a regular file of that name exists,
otherwise the directory is created. -/
def mkdirExistOk (fs : FS) (d : Str) : FS × Option Err :=
  if d ∈ fs.rootDirs then (fs, none)
  else if d ∈ fs.rootFiles then (fs, some Err.fileExists)
  else ({ fs with rootDirs := fs.rootDirs ++ [d] }, none)

/-- Model of `path.rename(target_dir / dest / path.name)` for a regular file at
the root: `FileNotFoundError` when the source file is gone or no entry
named `dest` exists, `NotADirectoryError` when `dest` exists but is a
regular file (ENOTDIR); otherwise the file leaves the root and lands in
`dest` (overwriting a same-named file there, as POSIX rename does). -/
def renameFile (fs : FS) (f : Str) (dest : Str) : FS × Option Err :=
  if f ∈ fs.rootFiles then
    if dest ∈ fs.rootDirs then
      ({ fs with
          rootFiles := fs.rootFiles.erase f
          subFiles := updMap fs.subFiles dest ((fs.subFiles dest).erase f ++ [f]) },
        none)
    else if dest ∈ fs.rootFiles then (fs, some Err.notADirectory)
    else (fs, some Err.fileNotFound)
  else (fs, some Err.fileNotFound)

/-- Model of `path.rename(target_dir / 'FOLDERS' / path.name)` for a directory
at the root, following POSIX rename semantics: `FileNotFoundError` when
the source directory is gone or no entry named `FOLDERS` exists,
`NotADirectoryError` when `FOLDERS` exists as a regular file, or when
`FOLDERS/d` exists as a regular file; renaming onto an existing
directory `FOLDERS/d` succeeds when that target is empty (the target is
replaced; directory contents are keyed by name, so the moved directory
keeps its contents) and raises ENOTEMPTY otherwise; in the plain case
the directory moves under `FOLDERS`, keeping its own contents. -/
def renameDir (fs : FS) (d : Str) : FS × Option Err :=
  if d ∈ fs.rootDirs then
    if foldersName ∈ fs.rootDirs then
      if d ∈ fs.subFiles foldersName then (fs, some Err.notADirectory)
      else if d ∈ fs.subDirs foldersName then
        if fs.subFiles d = [] ∧ fs.subDirs d = [] then
          ({ fs with rootDirs := fs.rootDirs.erase d }, none)
        else (fs, some Err.dirNotEmpty)
      else
        ({ fs with
            rootDirs := fs.rootDirs.erase d
            subDirs := updMap fs.subDirs foldersName (fs.subDirs foldersName ++ [d]) },
          none)
    else if foldersName ∈ fs.rootFiles then (fs, some Err.notADirectory)
    else (fs, some Err.fileNotFound)
  else (fs, some Err.fileNotFound)

/-- Run one loop body over a snapshot list, stopping at the first raised
error, as a Python `for` loop over `iterdir()` does. -/
def runList (step : FS → α → FS × Option Err) (fs : FS) : List α → FS × Option Err
  | [] => (fs, none)
  | a :: rest =>
    match step fs a with
    | (fs', none) => runList step fs' rest
    | (fs', some e) => (fs', some e)

/-- Step `create_folders`: `for x in self.org_directories:` run mkdir. -/
def create_folders (m : Mapping) (fs : FS) : FS × Option Err :=
  runList mkdirExistOk fs (keys m)

/-- Inner loop body of `organize_files`: `for org_dir in
self.org_directories: if path.suffix.lower() in
self.org_directories[org_dir]: path.rename(...)`.  Note there is no
`break`: the loop keeps testing later categories after a move. -/
def fileStep (f : Str) (fs : FS) (p : Str × List Str) : FS × Option Err :=
  if lowerStr (suffix f) ∈ p.2 then renameFile fs f p.1 else (fs, none)

/-- Outer loop body of `organize_files`: the `path.is_file() and
path.suffix` guard, then the category loop. -/
def processFile (m : Mapping) (fs : FS) (f : Str) : FS × Option Err :=
  if f ∈ fs.rootFiles ∧ suffix f ≠ [] then runList (fileStep f) fs m
  else (fs, none)

/-- Step `organize_files`: iterate the children present at entry (directories
fail the `is_file()` test, so only the root files matter). -/
def organize_files (m : Mapping) (fs : FS) : FS × Option Err :=
  runList (processFile m) fs fs.rootFiles

/-- Loop body of `organize_remaining_files`: any still-present root file
with a non-empty suffix is renamed into `Other`. -/
def remFileStep (fs : FS) (f : Str) : FS × Option Err :=
  if f ∈ fs.rootFiles ∧ suffix f ≠ [] then renameFile fs f otherName
  else (fs, none)

def organize_remaining_files (fs : FS) : FS × Option Err :=
  runList remFileStep fs fs.rootFiles

/-- Loop body of `organize_remaining_folders`: any still-present root
directory whose name is not a mapping key and not `FOLDERS` is renamed
into `FOLDERS`. -/
def remDirStep (m : Mapping) (fs : FS) (d : Str) : FS × Option Err :=
  if d ∈ fs.rootDirs ∧ d ∉ keys m ∧ d ≠ foldersName then renameDir fs d
  else (fs, none)

def organize_remaining_folders (m : Mapping) (fs : FS) : FS × Option Err :=
  runList (remDirStep m) fs fs.rootDirs

/-- Sequencing of two steps: the second runs only when the first raised
no exception (Python's control flow between consecutive statements). -/
def andThen (r : FS × Option Err) (k : FS → FS × Option Err) : FS × Option Err :=
  match r with
  | (fs, none) => k fs
  | r => r

/-- Method `organize`: the four steps in order, aborting at the first error. -/
def organize (m : Mapping) (fs : FS) : FS × Option Err :=
  andThen (create_folders m fs) (fun fs1 =>
    andThen (organize_files m fs1) (fun fs2 =>
      andThen (organize_remaining_files fs2) (fun fs3 =>
        organize_remaining_folders m fs3)))

/-- Model of POSIX `Path(p).expanduser()`: the expansion fires exactly
when the first component starts with `~`.  A bare `~` (first component
exactly `~`, i.e. nothing before the next `/`) expands to the current
home directory; `~user` expands to that user's home directory looked up
in the user database `userHome` (mirroring `pwd.getpwnam`; `none` models
Python raising RuntimeError for an unknown user, which propagates out of
the constructor); every other path is returned unchanged. -/
def expanduser (home : Str) (userHome : Str → Option Str) (p : Str) :
    Option Str :=
  if p.head? = some '~' then
    if p.tail.takeWhile (fun c => c ≠ '/') = [] then
      some (home ++ p.tail)
    else
      match userHome (p.tail.takeWhile (fun c => c ≠ '/')) with
      | some h => some (h ++ p.tail.dropWhile (fun c => c ≠ '/'))
      | none => none
  else some p

def isAbsolute (p : Str) : Prop := p.head? = some '/'

instance (p : Str) : Decidable (isAbsolute p) := by
  unfold isAbsolute; infer_instance

def TARGET_DIR : Str := ("~/Downloads").data

/-- Constructor `__init__`: `target_dir = self.TARGET_DIR` when `None`, then
`self.target_dir = Path(target_dir).expanduser()` (a `none` result models
the RuntimeError an unknown `~user` raises during construction). -/
def initTarget (home : Str) (userHome : Str → Option Str)
    (targetDir : Option Str) : Option Str :=
  expanduser home userHome (targetDir.getD TARGET_DIR)

/-- Extension lists of distinct categories share no string; this is the
shape disjointness takes for an association list in iteration order. -/
def disjExts : Mapping → Prop
  | [] => True
  | p :: r => (∀ q ∈ r, ∀ x ∈ p.2, x ∉ q.2) ∧ disjExts r

instance disjExtsDec : (m : Mapping) → Decidable (disjExts m)
  | [] => .isTrue trivial
  | p :: r =>
    have : Decidable (disjExts r) := disjExtsDec r
    inferInstanceAs (Decidable (_ ∧ _))

/-! ### Generic lemmas about `runList` -/

theorem runList_id {α : Type} (step : FS → α → FS × Option Err) (l : List α)
    (h : ∀ fs' a, a ∈ l → step fs' a = (fs', none)) (fs : FS) :
    runList step fs l = (fs, none) := by
  induction l generalizing fs with
  | nil => rfl
  | cons a rest ih =>
    simp only [runList, h fs a (List.mem_cons_self a rest)]
    exact ih (fun fs' b hb => h fs' b (List.mem_cons_of_mem _ hb)) fs

theorem runList_preserve {α : Type} (step : FS → α → FS × Option Err)
    (P : FS → Prop) (l : List α) (fs : FS)
    (h : ∀ fs' a, a ∈ l → P fs' → P (step fs' a).1) (hP : P fs) :
    P (runList step fs l).1 := by
  induction l generalizing fs with
  | nil => exact hP
  | cons a rest ih =>
    simp only [runList]
    rcases hsa : step fs a with ⟨fs', e⟩
    have hP' : P fs' := by
      have := h fs a (List.mem_cons_self a rest) hP
      rw [hsa] at this
      exact this
    cases e with
    | none =>
      exact ih fs' (fun fs'' b hb => h fs'' b (List.mem_cons_of_mem _ hb)) hP'
    | some e => exact hP'

/-! ### Invariants of the filesystem primitives -/

theorem mkdir_rootFiles (fs : FS) (d : Str) :
    (mkdirExistOk fs d).1.rootFiles = fs.rootFiles := by
  unfold mkdirExistOk; split_ifs <;> rfl

theorem mkdir_subFiles (fs : FS) (d : Str) :
    (mkdirExistOk fs d).1.subFiles = fs.subFiles := by
  unfold mkdirExistOk; split_ifs <;> rfl

theorem mkdir_subDirs (fs : FS) (d : Str) :
    (mkdirExistOk fs d).1.subDirs = fs.subDirs := by
  unfold mkdirExistOk; split_ifs <;> rfl

theorem mkdir_dirs_mono (fs : FS) (d x : Str) (h : x ∈ fs.rootDirs) :
    x ∈ (mkdirExistOk fs d).1.rootDirs := by
  unfold mkdirExistOk; split_ifs <;> simp_all

theorem mkdir_dirs_sub (fs : FS) (d x : Str)
    (h : x ∈ (mkdirExistOk fs d).1.rootDirs) : x ∈ fs.rootDirs ∨ x = d := by
  unfold mkdirExistOk at h; split_ifs at h <;> simp_all

theorem mkdir_nodup (fs : FS) (d : Str) (h : fs.rootDirs.Nodup) :
    (mkdirExistOk fs d).1.rootDirs.Nodup := by
  unfold mkdirExistOk
  split_ifs with h1 h2
  · exact h
  · exact h
  · simpa [List.nodup_append, h1] using h

theorem mkdir_self_mem (fs : FS) (d : Str) (h : (mkdirExistOk fs d).2 = none) :
    d ∈ (mkdirExistOk fs d).1.rootDirs := by
  unfold mkdirExistOk at *
  split_ifs at * <;> simp_all

theorem renameFile_rootDirs (fs : FS) (f dest : Str) :
    (renameFile fs f dest).1.rootDirs = fs.rootDirs := by
  unfold renameFile; split_ifs <;> rfl

theorem renameFile_subDirs (fs : FS) (f dest : Str) :
    (renameFile fs f dest).1.subDirs = fs.subDirs := by
  unfold renameFile; split_ifs <;> rfl

theorem renameFile_files_mem (fs : FS) (f dest g : Str) (hne : g ≠ f)
    (h : g ∈ fs.rootFiles) : g ∈ (renameFile fs f dest).1.rootFiles := by
  unfold renameFile
  split_ifs <;> simp_all [List.mem_erase_of_ne hne]

theorem renameFile_files_sub (fs : FS) (f dest : Str) :
    (renameFile fs f dest).1.rootFiles ⊆ fs.rootFiles := by
  unfold renameFile
  split_ifs <;> first | exact List.erase_subset f _ | exact fun _ h => h

theorem renameFile_nodup (fs : FS) (f dest : Str) (h : fs.rootFiles.Nodup) :
    (renameFile fs f dest).1.rootFiles.Nodup := by
  unfold renameFile
  split_ifs <;> first | exact h.erase f | exact h

theorem renameFile_subFiles_mem (fs : FS) (f dest g d : Str)
    (h : g ∈ fs.subFiles d) : g = f ∨ g ∈ (renameFile fs f dest).1.subFiles d := by
  unfold renameFile
  split_ifs with h1 h2 h3
  · by_cases hg : g = f
    · exact Or.inl hg
    · refine Or.inr ?_
      simp only [updMap]
      split_ifs with hd
      · subst hd
        exact List.mem_append_left _ ((List.mem_erase_of_ne hg).mpr h)
      · exact h
  · exact Or.inr h
  · exact Or.inr h
  · exact Or.inr h

theorem renameDir_rootFiles (fs : FS) (d : Str) :
    (renameDir fs d).1.rootFiles = fs.rootFiles := by
  unfold renameDir; split_ifs <;> rfl

theorem renameDir_subFiles (fs : FS) (d : Str) :
    (renameDir fs d).1.subFiles = fs.subFiles := by
  unfold renameDir; split_ifs <;> rfl

theorem renameDir_dirs_mem (fs : FS) (d x : Str) (hne : x ≠ d)
    (h : x ∈ fs.rootDirs) : x ∈ (renameDir fs d).1.rootDirs := by
  unfold renameDir
  split_ifs <;> simp_all [List.mem_erase_of_ne hne]

theorem renameDir_dirs_sub (fs : FS) (d : Str) :
    (renameDir fs d).1.rootDirs ⊆ fs.rootDirs := by
  unfold renameDir
  split_ifs <;> first | exact List.erase_subset d _ | exact fun _ h => h

theorem renameDir_nodup (fs : FS) (d : Str) (h : fs.rootDirs.Nodup) :
    (renameDir fs d).1.rootDirs.Nodup := by
  unfold renameDir
  split_ifs <;> first | exact h.erase d | exact h

theorem renameDir_subDirs_mono (fs : FS) (d x e : Str)
    (h : x ∈ fs.subDirs e) : x ∈ (renameDir fs d).1.subDirs e := by
  unfold renameDir
  split_ifs <;>
    first
      | exact h
      | (simp only [updMap]
         split_ifs with he
         · subst he
           exact List.mem_append_left _ h
         · exact h)

/-! ### Explicit equations for the primitives and `runList` -/

theorem runList_cons {α : Type} (step : FS → α → FS × Option Err) (fs : FS)
    (a : α) (rest : List α) :
    runList step fs (a :: rest) =
      match step fs a with
      | (fs', none) => runList step fs' rest
      | (fs', some e) => (fs', some e) := rfl

theorem runList_cons_of_none {α : Type} (step : FS → α → FS × Option Err)
    (fs : FS) (a : α) (rest : List α) (fs' : FS) (h : step fs a = (fs', none)) :
    runList step fs (a :: rest) = runList step fs' rest := by
  rw [runList_cons, h]

theorem runList_cons_of_some {α : Type} (step : FS → α → FS × Option Err)
    (fs : FS) (a : α) (rest : List α) (fs' : FS) (e : Err)
    (h : step fs a = (fs', some e)) :
    runList step fs (a :: rest) = (fs', some e) := by
  rw [runList_cons, h]

theorem renameFile_eq (fs : FS) (f dest : Str) (h1 : f ∈ fs.rootFiles)
    (h2 : dest ∈ fs.rootDirs) :
    renameFile fs f dest =
      ({ fs with
          rootFiles := fs.rootFiles.erase f
          subFiles := updMap fs.subFiles dest ((fs.subFiles dest).erase f ++ [f]) },
        none) := by
  unfold renameFile; rw [if_pos h1, if_pos h2]

theorem renameFile_fail_src (fs : FS) (f dest : Str) (h1 : f ∉ fs.rootFiles) :
    renameFile fs f dest = (fs, some Err.fileNotFound) := by
  unfold renameFile; rw [if_neg h1]

theorem renameFile_fail_dest (fs : FS) (f dest : Str) (h1 : f ∈ fs.rootFiles)
    (h2 : dest ∉ fs.rootDirs) (h3 : dest ∉ fs.rootFiles) :
    renameFile fs f dest = (fs, some Err.fileNotFound) := by
  unfold renameFile; rw [if_pos h1, if_neg h2, if_neg h3]

theorem renameDir_eq (fs : FS) (d : Str) (h1 : d ∈ fs.rootDirs)
    (h2 : foldersName ∈ fs.rootDirs) (h2f : d ∉ fs.subFiles foldersName)
    (h3 : d ∉ fs.subDirs foldersName) :
    renameDir fs d =
      ({ fs with
          rootDirs := fs.rootDirs.erase d
          subDirs := updMap fs.subDirs foldersName (fs.subDirs foldersName ++ [d]) },
        none) := by
  unfold renameDir; rw [if_pos h1, if_pos h2, if_neg h2f, if_neg h3]

theorem renameDir_fail_dest (fs : FS) (d : Str) (h1 : d ∈ fs.rootDirs)
    (h2 : foldersName ∉ fs.rootDirs) (h3 : foldersName ∉ fs.rootFiles) :
    renameDir fs d = (fs, some Err.fileNotFound) := by
  unfold renameDir; rw [if_pos h1, if_neg h2, if_neg h3]

/-! ### `create_folders` lemmas -/

theorem create_folders_rootFiles (m : Mapping) (fs : FS) :
    (create_folders m fs).1.rootFiles = fs.rootFiles :=
  runList_preserve _ (fun s => s.rootFiles = fs.rootFiles) _ fs
    (fun fs' a _ h => by simp only [mkdir_rootFiles]; exact h) rfl

theorem create_folders_subFiles (m : Mapping) (fs : FS) :
    (create_folders m fs).1.subFiles = fs.subFiles :=
  runList_preserve _ (fun s => s.subFiles = fs.subFiles) _ fs
    (fun fs' a _ h => by simp only [mkdir_subFiles]; exact h) rfl

theorem create_folders_subDirs (m : Mapping) (fs : FS) :
    (create_folders m fs).1.subDirs = fs.subDirs :=
  runList_preserve _ (fun s => s.subDirs = fs.subDirs) _ fs
    (fun fs' a _ h => by simp only [mkdir_subDirs]; exact h) rfl

theorem create_folders_dirs_mono (m : Mapping) (fs : FS) (x : Str)
    (h : x ∈ fs.rootDirs) : x ∈ (create_folders m fs).1.rootDirs :=
  runList_preserve _ (fun s => x ∈ s.rootDirs) _ fs
    (fun fs' a _ hx => mkdir_dirs_mono fs' a x hx) h

theorem create_folders_dirs_sub (m : Mapping) (fs : FS) (x : Str)
    (h : x ∈ (create_folders m fs).1.rootDirs) :
    x ∈ fs.rootDirs ∨ x ∈ keys m := by
  have := runList_preserve mkdirExistOk
    (fun s => ∀ y ∈ s.rootDirs, y ∈ fs.rootDirs ∨ y ∈ keys m) (keys m) fs
    (fun fs' a ha hP y hy => by
      rcases mkdir_dirs_sub fs' a y hy with h1 | h1
      · exact hP y h1
      · exact Or.inr (h1 ▸ ha)) (fun y hy => Or.inl hy)
  exact this x h

theorem create_folders_nodup (m : Mapping) (fs : FS) (h : fs.rootDirs.Nodup) :
    (create_folders m fs).1.rootDirs.Nodup :=
  runList_preserve _ (fun s => s.rootDirs.Nodup) _ fs
    (fun fs' a _ hx => mkdir_nodup fs' a hx) h

theorem runList_mkdir_ok (l : List Str) (fs : FS)
    (h : ∀ k ∈ l, k ∉ fs.rootFiles) :
    (runList mkdirExistOk fs l).2 = none := by
  induction l generalizing fs with
  | nil => rfl
  | cons d rest ih =>
    have hd := h d (List.mem_cons_self d rest)
    by_cases h1 : d ∈ fs.rootDirs
    · rw [runList_cons_of_none _ _ _ _ fs (by unfold mkdirExistOk; rw [if_pos h1])]
      exact ih fs (fun k hk => h k (List.mem_cons_of_mem _ hk))
    · rw [runList_cons_of_none _ _ _ _ { fs with rootDirs := fs.rootDirs ++ [d] }
        (by unfold mkdirExistOk; rw [if_neg h1, if_neg hd])]
      exact ih _ (fun k hk => h k (List.mem_cons_of_mem _ hk))

theorem create_folders_ok (m : Mapping) (fs : FS)
    (h : ∀ k ∈ keys m, k ∉ fs.rootFiles) : (create_folders m fs).2 = none :=
  runList_mkdir_ok (keys m) fs h

theorem runList_mkdir_keys (l : List Str) (fs : FS)
    (h2 : (runList mkdirExistOk fs l).2 = none) :
    ∀ k ∈ l, k ∈ (runList mkdirExistOk fs l).1.rootDirs := by
  induction l generalizing fs with
  | nil => intro k hk; cases hk
  | cons d rest ih =>
    intro k hk
    rcases hm : mkdirExistOk fs d with ⟨fs', e⟩
    cases e with
    | some e =>
      rw [runList_cons_of_some _ _ _ _ _ _ hm] at h2
      cases h2
    | none =>
      rw [runList_cons_of_none _ _ _ _ _ hm] at h2 ⊢
      rcases List.mem_cons.mp hk with rfl | hk'
      · have hd : k ∈ fs'.rootDirs := by
          have hnone : (mkdirExistOk fs k).2 = none := by rw [hm]
          have := mkdir_self_mem fs k hnone
          rw [hm] at this
          exact this
        exact runList_preserve _ (fun s => k ∈ s.rootDirs) _ fs'
          (fun fs'' a _ hx => mkdir_dirs_mono fs'' a k hx) hd
      · exact ih fs' h2 k hk'

theorem create_folders_keys (m : Mapping) (fs : FS)
    (h2 : (create_folders m fs).2 = none) :
    ∀ k ∈ keys m, k ∈ (create_folders m fs).1.rootDirs :=
  runList_mkdir_keys (keys m) fs h2

/-! ### `organize_files` lemmas -/

theorem fileStep_rootDirs (f : Str) (fs : FS) (p : Str × List Str) :
    (fileStep f fs p).1.rootDirs = fs.rootDirs := by
  unfold fileStep
  split_ifs
  · exact renameFile_rootDirs fs f p.1
  · rfl

theorem fileStep_subDirs (f : Str) (fs : FS) (p : Str × List Str) :
    (fileStep f fs p).1.subDirs = fs.subDirs := by
  unfold fileStep
  split_ifs
  · exact renameFile_subDirs fs f p.1
  · rfl

theorem fileRun_rootDirs (f : Str) (m : Mapping) (fs : FS) :
    (runList (fileStep f) fs m).1.rootDirs = fs.rootDirs :=
  runList_preserve _ (fun s => s.rootDirs = fs.rootDirs) m fs
    (fun fs' p _ h => by simp only [fileStep_rootDirs]; exact h) rfl

theorem processFile_rootDirs (m : Mapping) (fs : FS) (f : Str) :
    (processFile m fs f).1.rootDirs = fs.rootDirs := by
  unfold processFile
  split_ifs
  · exact fileRun_rootDirs f m fs
  · rfl

theorem processFile_subDirs (m : Mapping) (fs : FS) (f : Str) :
    (processFile m fs f).1.subDirs = fs.subDirs := by
  unfold processFile
  split_ifs
  · exact runList_preserve _ (fun s => s.subDirs = fs.subDirs) m fs
      (fun fs' p _ h => by simp only [fileStep_subDirs]; exact h) rfl
  · rfl

theorem organize_files_rootDirs (m : Mapping) (fs : FS) :
    (organize_files m fs).1.rootDirs = fs.rootDirs :=
  runList_preserve _ (fun s => s.rootDirs = fs.rootDirs) _ fs
    (fun fs' f _ h => by simp only [processFile_rootDirs]; exact h) rfl

theorem organize_files_subDirs (m : Mapping) (fs : FS) :
    (organize_files m fs).1.subDirs = fs.subDirs :=
  runList_preserve _ (fun s => s.subDirs = fs.subDirs) _ fs
    (fun fs' f _ h => by simp only [processFile_subDirs]; exact h) rfl

theorem fileRun_keep (f g : Str) (m : Mapping) (fs : FS) (hne : g ≠ f)
    (h : g ∈ fs.rootFiles) : g ∈ (runList (fileStep f) fs m).1.rootFiles :=
  runList_preserve _ (fun s => g ∈ s.rootFiles) m fs
    (fun fs' p _ hx => by
      unfold fileStep
      split_ifs
      · exact renameFile_files_mem fs' f p.1 g hne hx
      · exact hx) h

theorem processFile_keep (m : Mapping) (fs : FS) (f g : Str)
    (hg : g ∈ fs.rootFiles)
    (hno : suffix g = [] ∨ ∀ p ∈ m, lowerStr (suffix g) ∉ p.2) :
    g ∈ (processFile m fs f).1.rootFiles := by
  unfold processFile
  split_ifs with hguard
  · by_cases hfg : g = f
    · subst hfg
      rcases hno with hs | hno
      · exact absurd hs hguard.2
      · rw [runList_id (fileStep g) m (fun fs' p hp => by
          unfold fileStep
          rw [if_neg (hno p hp)]) fs]
        exact hg
    · exact fileRun_keep f g m fs hfg hg
  · exact hg

theorem organize_files_keep (m : Mapping) (fs : FS) (g : Str)
    (hg : g ∈ fs.rootFiles)
    (hno : suffix g = [] ∨ ∀ p ∈ m, lowerStr (suffix g) ∉ p.2) :
    g ∈ (organize_files m fs).1.rootFiles :=
  runList_preserve _ (fun s => g ∈ s.rootFiles) _ fs
    (fun fs' f _ hx => processFile_keep m fs' f g hx hno) hg

theorem processFile_nodup (m : Mapping) (fs : FS) (f : Str)
    (h : fs.rootFiles.Nodup) : (processFile m fs f).1.rootFiles.Nodup := by
  unfold processFile
  split_ifs
  · exact runList_preserve _ (fun s => s.rootFiles.Nodup) m fs
      (fun fs' p _ hx => by
        unfold fileStep
        split_ifs
        · exact renameFile_nodup fs' f p.1 hx
        · exact hx) h
  · exact h

theorem organize_files_nodup (m : Mapping) (fs : FS)
    (h : fs.rootFiles.Nodup) : (organize_files m fs).1.rootFiles.Nodup :=
  runList_preserve _ (fun s => s.rootFiles.Nodup) _ fs
    (fun fs' f _ hx => processFile_nodup m fs' f hx) h

theorem fileRun_ok (f : Str) (m : Mapping) (fs : FS) (hd : disjExts m)
    (hk : ∀ p ∈ m, p.1 ∈ fs.rootDirs) (hf : f ∈ fs.rootFiles) :
    (runList (fileStep f) fs m).2 = none := by
  induction m generalizing fs with
  | nil => rfl
  | cons p rest ih =>
    by_cases hmatch : lowerStr (suffix f) ∈ p.2
    · have hp1 : p.1 ∈ fs.rootDirs := hk p (List.mem_cons_self p rest)
      rw [runList_cons_of_none _ _ _ _ _ (by
        unfold fileStep
        rw [if_pos hmatch]
        exact renameFile_eq fs f p.1 hf hp1)]
      rw [runList_id (fileStep f) rest (fun fs'' q hq => by
        unfold fileStep
        rw [if_neg (fun hmem => hd.1 q hq (lowerStr (suffix f)) hmatch hmem)]) _]
    · rw [runList_cons_of_none _ _ _ _ fs (by unfold fileStep; rw [if_neg hmatch])]
      exact ih fs hd.2 (fun q hq => hk q (List.mem_cons_of_mem _ hq)) hf

theorem filesRun_ok (m : Mapping) (l : List Str) (fs : FS) (hd : disjExts m)
    (hk : ∀ p ∈ m, p.1 ∈ fs.rootDirs) :
    (runList (processFile m) fs l).2 = none := by
  induction l generalizing fs with
  | nil => rfl
  | cons f rest ih =>
    by_cases hguard : f ∈ fs.rootFiles ∧ suffix f ≠ []
    · rcases hrun : runList (fileStep f) fs m with ⟨fs', e⟩
      have he : e = none := by
        have := fileRun_ok f m fs hd hk hguard.1
        rw [hrun] at this
        exact this
      subst he
      rw [runList_cons_of_none _ _ _ _ fs' (by unfold processFile; rw [if_pos hguard, hrun])]
      apply ih
      intro p hp
      have hdirs : fs'.rootDirs = fs.rootDirs := by
        have := fileRun_rootDirs f m fs
        rw [hrun] at this
        exact this
      rw [hdirs]
      exact hk p hp
    · rw [runList_cons_of_none _ _ _ _ fs (by unfold processFile; rw [if_neg hguard])]
      exact ih fs hk

theorem organize_files_ok (m : Mapping) (fs : FS) (hd : disjExts m)
    (hk : ∀ p ∈ m, p.1 ∈ fs.rootDirs) : (organize_files m fs).2 = none :=
  filesRun_ok m fs.rootFiles fs hd hk

/-! ### `organize_remaining_files` lemmas -/

theorem remFileStep_rootDirs (fs : FS) (f : Str) :
    (remFileStep fs f).1.rootDirs = fs.rootDirs := by
  unfold remFileStep
  split_ifs
  · exact renameFile_rootDirs fs f otherName
  · rfl

theorem remFileStep_subDirs (fs : FS) (f : Str) :
    (remFileStep fs f).1.subDirs = fs.subDirs := by
  unfold remFileStep
  split_ifs
  · exact renameFile_subDirs fs f otherName
  · rfl

theorem remFiles_rootDirs (fs : FS) :
    (organize_remaining_files fs).1.rootDirs = fs.rootDirs :=
  runList_preserve _ (fun s => s.rootDirs = fs.rootDirs) _ fs
    (fun fs' f _ h => by simp only [remFileStep_rootDirs]; exact h) rfl

theorem remFiles_subDirs (fs : FS) :
    (organize_remaining_files fs).1.subDirs = fs.subDirs :=
  runList_preserve _ (fun s => s.subDirs = fs.subDirs) _ fs
    (fun fs' f _ h => by simp only [remFileStep_subDirs]; exact h) rfl

theorem remFiles_keep (fs : FS) (g : Str) (hg : g ∈ fs.rootFiles)
    (hs : suffix g = []) : g ∈ (organize_remaining_files fs).1.rootFiles :=
  runList_preserve _ (fun s => g ∈ s.rootFiles) _ fs
    (fun fs' f _ hx => by
      unfold remFileStep
      split_ifs with hguard
      · refine renameFile_files_mem fs' f otherName g ?_ hx
        intro hgf
        subst hgf
        exact hguard.2 hs
      · exact hx) hg

theorem remFiles_run (l : List Str) (fs : FS) (hO : otherName ∈ fs.rootDirs) :
    (runList remFileStep fs l).2 = none ∧
    (∀ g, g ∈ fs.subFiles otherName →
      g ∈ (runList remFileStep fs l).1.subFiles otherName) ∧
    (∀ g ∈ l, g ∈ fs.rootFiles → suffix g ≠ [] →
      g ∈ (runList remFileStep fs l).1.subFiles otherName) := by
  induction l generalizing fs with
  | nil =>
    exact ⟨rfl, fun g hg => hg, fun g hg => absurd hg (List.not_mem_nil g)⟩
  | cons f rest ih =>
    by_cases hguard : f ∈ fs.rootFiles ∧ suffix f ≠ []
    · have hstep : remFileStep fs f =
        ({ fs with
            rootFiles := fs.rootFiles.erase f
            subFiles := updMap fs.subFiles otherName
              ((fs.subFiles otherName).erase f ++ [f]) }, none) := by
        unfold remFileStep
        rw [if_pos hguard]
        exact renameFile_eq fs f otherName hguard.1 hO
      rw [runList_cons_of_none _ _ _ _ _ hstep]
      obtain ⟨ha, hb, hc⟩ := ih { fs with
          rootFiles := fs.rootFiles.erase f
          subFiles := updMap fs.subFiles otherName
            ((fs.subFiles otherName).erase f ++ [f]) } hO
      have hfin : f ∈ updMap fs.subFiles otherName
          ((fs.subFiles otherName).erase f ++ [f]) otherName := by
        unfold updMap
        rw [if_pos rfl]
        exact List.mem_append_right _ (List.mem_singleton.mpr rfl)
      refine ⟨ha, ?_, ?_⟩
      · intro g hg
        apply hb
        show g ∈ updMap fs.subFiles otherName
          ((fs.subFiles otherName).erase f ++ [f]) otherName
        unfold updMap
        rw [if_pos rfl]
        by_cases hgf : g = f
        · subst hgf
          exact List.mem_append_right _ (List.mem_singleton.mpr rfl)
        · exact List.mem_append_left _ ((List.mem_erase_of_ne hgf).mpr hg)
      · intro g hg hgf hgs
        by_cases hgf2 : g = f
        · subst hgf2
          exact hb g hfin
        · rcases List.mem_cons.mp hg with rfl | hg'
          · exact absurd rfl hgf2
          · exact hc g hg' ((List.mem_erase_of_ne hgf2).mpr hgf) hgs
    · have hstep : remFileStep fs f = (fs, none) := by
        unfold remFileStep
        rw [if_neg hguard]
      rw [runList_cons_of_none _ _ _ _ _ hstep]
      obtain ⟨ha, hb, hc⟩ := ih fs hO
      refine ⟨ha, hb, ?_⟩
      intro g hg hgf hgs
      rcases List.mem_cons.mp hg with rfl | hg'
      · exact absurd ⟨hgf, hgs⟩ hguard
      · exact hc g hg' hgf hgs

theorem remFiles_ok (fs : FS) (hO : otherName ∈ fs.rootDirs) :
    (organize_remaining_files fs).2 = none :=
  (remFiles_run fs.rootFiles fs hO).1

theorem remFiles_mem (fs : FS) (hO : otherName ∈ fs.rootDirs) (f : Str)
    (hf : f ∈ fs.rootFiles) (hs : suffix f ≠ []) :
    f ∈ (organize_remaining_files fs).1.subFiles otherName :=
  (remFiles_run fs.rootFiles fs hO).2.2 f hf hf hs

theorem remFiles_fail (l : List Str) (fs : FS) (hO : otherName ∉ fs.rootDirs)
    (hOf : otherName ∉ fs.rootFiles)
    (g : Str) (hg : g ∈ l) (hgf : g ∈ fs.rootFiles) (hgs : suffix g ≠ []) :
    (runList remFileStep fs l).2 = some Err.fileNotFound := by
  induction l with
  | nil => cases hg
  | cons f rest ih =>
    by_cases hguard : f ∈ fs.rootFiles ∧ suffix f ≠ []
    · have hstep : remFileStep fs f = (fs, some Err.fileNotFound) := by
        unfold remFileStep
        rw [if_pos hguard]
        exact renameFile_fail_dest fs f otherName hguard.1 hO hOf
      rw [runList_cons_of_some _ _ _ _ _ _ hstep]
    · have hstep : remFileStep fs f = (fs, none) := by
        unfold remFileStep
        rw [if_neg hguard]
      rw [runList_cons_of_none _ _ _ _ _ hstep]
      rcases List.mem_cons.mp hg with rfl | hg'
      · exact absurd ⟨hgf, hgs⟩ hguard
      · exact ih hg'

/-! ### `organize_remaining_folders` lemmas -/

theorem remDirStep_rootFiles (m : Mapping) (fs : FS) (d : Str) :
    (remDirStep m fs d).1.rootFiles = fs.rootFiles := by
  unfold remDirStep
  split_ifs
  · exact renameDir_rootFiles fs d
  · rfl

theorem remDirStep_subFiles (m : Mapping) (fs : FS) (d : Str) :
    (remDirStep m fs d).1.subFiles = fs.subFiles := by
  unfold remDirStep
  split_ifs
  · exact renameDir_subFiles fs d
  · rfl

theorem remDirs_rootFiles (m : Mapping) (fs : FS) :
    (organize_remaining_folders m fs).1.rootFiles = fs.rootFiles :=
  runList_preserve _ (fun s => s.rootFiles = fs.rootFiles) _ fs
    (fun fs' d _ h => by simp only [remDirStep_rootFiles]; exact h) rfl

theorem remDirs_subFiles (m : Mapping) (fs : FS) :
    (organize_remaining_folders m fs).1.subFiles = fs.subFiles :=
  runList_preserve _ (fun s => s.subFiles = fs.subFiles) _ fs
    (fun fs' d _ h => by simp only [remDirStep_subFiles]; exact h) rfl

theorem remDirStep_not_mem (m : Mapping) (fs : FS) (x d : Str)
    (h : d ∉ fs.rootDirs) : d ∉ (remDirStep m fs x).1.rootDirs := by
  unfold remDirStep
  split_ifs
  · exact fun hmem => h (renameDir_dirs_sub fs x hmem)
  · exact h

theorem remDirStep_subDirs_mono (m : Mapping) (fs : FS) (x d : Str)
    (h : d ∈ fs.subDirs foldersName) :
    d ∈ (remDirStep m fs x).1.subDirs foldersName := by
  unfold remDirStep
  split_ifs
  · exact renameDir_subDirs_mono fs x d foldersName h
  · exact h

theorem remDirs_remove (m : Mapping) (l : List Str) (fs : FS) (d : Str)
    (hnd : fs.rootDirs.Nodup) (hd : d ∈ l) (hdr : d ∈ fs.rootDirs)
    (hk : d ∉ keys m) (hF : d ≠ foldersName)
    (h2 : (runList (remDirStep m) fs l).2 = none) :
    d ∉ (runList (remDirStep m) fs l).1.rootDirs ∧
    d ∈ (runList (remDirStep m) fs l).1.subDirs foldersName := by
  induction l generalizing fs with
  | nil => cases hd
  | cons x rest ih =>
    by_cases hguard : x ∈ fs.rootDirs ∧ x ∉ keys m ∧ x ≠ foldersName
    · by_cases hFin : foldersName ∈ fs.rootDirs
      · by_cases hsf : x ∈ fs.subFiles foldersName
        · have hstep : remDirStep m fs x = (fs, some Err.notADirectory) := by
            unfold remDirStep
            rw [if_pos hguard]
            unfold renameDir
            rw [if_pos hguard.1, if_pos hFin, if_pos hsf]
          rw [runList_cons_of_some _ _ _ _ _ _ hstep] at h2
          cases h2
        · by_cases hsub : x ∈ fs.subDirs foldersName
          · by_cases hemp : fs.subFiles x = [] ∧ fs.subDirs x = []
            · have hstep : remDirStep m fs x =
                ({ fs with rootDirs := fs.rootDirs.erase x }, none) := by
                unfold remDirStep
                rw [if_pos hguard]
                unfold renameDir
                rw [if_pos hguard.1, if_pos hFin, if_neg hsf, if_pos hsub,
                  if_pos hemp]
              rw [runList_cons_of_none _ _ _ _ _ hstep] at h2 ⊢
              by_cases hxd : d = x
              · subst hxd
                constructor
                · refine runList_preserve _ (fun s => d ∉ s.rootDirs) rest _
                    (fun fs'' a _ hx => remDirStep_not_mem m fs'' a d hx) ?_
                  intro hmem
                  exact (hnd.mem_erase_iff.mp hmem).1 rfl
                · refine runList_preserve _
                    (fun s => d ∈ s.subDirs foldersName) rest _
                    (fun fs'' a _ hx => remDirStep_subDirs_mono m fs'' a d hx) ?_
                  exact hsub
              · have hd' : d ∈ rest := by
                  rcases List.mem_cons.mp hd with rfl | h
                  · exact absurd rfl hxd
                  · exact h
                exact ih _ (hnd.erase x) hd'
                  ((List.mem_erase_of_ne hxd).mpr hdr) h2
            · have hstep : remDirStep m fs x = (fs, some Err.dirNotEmpty) := by
                unfold remDirStep
                rw [if_pos hguard]
                unfold renameDir
                rw [if_pos hguard.1, if_pos hFin, if_neg hsf, if_pos hsub,
                  if_neg hemp]
              rw [runList_cons_of_some _ _ _ _ _ _ hstep] at h2
              cases h2
          · have hstep : remDirStep m fs x =
              ({ fs with
                  rootDirs := fs.rootDirs.erase x
                  subDirs := updMap fs.subDirs foldersName
                    (fs.subDirs foldersName ++ [x]) }, none) := by
              unfold remDirStep
              rw [if_pos hguard]
              exact renameDir_eq fs x hguard.1 hFin hsf hsub
            rw [runList_cons_of_none _ _ _ _ _ hstep] at h2 ⊢
            by_cases hxd : d = x
            · subst hxd
              constructor
              · refine runList_preserve _ (fun s => d ∉ s.rootDirs) rest _
                  (fun fs'' a _ hx => remDirStep_not_mem m fs'' a d hx) ?_
                intro hmem
                exact (hnd.mem_erase_iff.mp hmem).1 rfl
              · refine runList_preserve _
                  (fun s => d ∈ s.subDirs foldersName) rest _
                  (fun fs'' a _ hx => remDirStep_subDirs_mono m fs'' a d hx) ?_
                show d ∈ updMap fs.subDirs foldersName
                  (fs.subDirs foldersName ++ [d]) foldersName
                unfold updMap
                rw [if_pos rfl]
                exact List.mem_append_right _ (List.mem_singleton.mpr rfl)
            · have hd' : d ∈ rest := by
                rcases List.mem_cons.mp hd with rfl | h
                · exact absurd rfl hxd
                · exact h
              exact ih _ (hnd.erase x) hd'
                ((List.mem_erase_of_ne hxd).mpr hdr) h2
      · by_cases hFf : foldersName ∈ fs.rootFiles
        · have hstep : remDirStep m fs x = (fs, some Err.notADirectory) := by
            unfold remDirStep
            rw [if_pos hguard]
            unfold renameDir
            rw [if_pos hguard.1, if_neg hFin, if_pos hFf]
          rw [runList_cons_of_some _ _ _ _ _ _ hstep] at h2
          cases h2
        · have hstep : remDirStep m fs x = (fs, some Err.fileNotFound) := by
            unfold remDirStep
            rw [if_pos hguard]
            exact renameDir_fail_dest fs x hguard.1 hFin hFf
          rw [runList_cons_of_some _ _ _ _ _ _ hstep] at h2
          cases h2
    · have hstep : remDirStep m fs x = (fs, none) := by
        unfold remDirStep
        rw [if_neg hguard]
      rw [runList_cons_of_none _ _ _ _ _ hstep] at h2 ⊢
      have hd' : d ∈ rest := by
        rcases List.mem_cons.mp hd with rfl | h
        · exact absurd ⟨hdr, hk, hF⟩ hguard
        · exact h
      exact ih fs hnd hd' hdr h2

theorem organize_remaining_folders_remove (m : Mapping) (fs : FS) (d : Str)
    (hnd : fs.rootDirs.Nodup) (hdr : d ∈ fs.rootDirs) (hk : d ∉ keys m)
    (hF : d ≠ foldersName)
    (h2 : (organize_remaining_folders m fs).2 = none) :
    d ∉ (organize_remaining_folders m fs).1.rootDirs ∧
    d ∈ (organize_remaining_folders m fs).1.subDirs foldersName :=
  remDirs_remove m fs.rootDirs fs d hnd hdr hdr hk hF h2

theorem remDirs_fail (m : Mapping) (l : List Str) (fs : FS)
    (hF : foldersName ∉ fs.rootDirs) (hFf : foldersName ∉ fs.rootFiles)
    (d : Str) (hd : d ∈ l)
    (hdr : d ∈ fs.rootDirs) (hk : d ∉ keys m) (hne : d ≠ foldersName) :
    (runList (remDirStep m) fs l).2 = some Err.fileNotFound := by
  induction l with
  | nil => cases hd
  | cons x rest ih =>
    by_cases hguard : x ∈ fs.rootDirs ∧ x ∉ keys m ∧ x ≠ foldersName
    · have hstep : remDirStep m fs x = (fs, some Err.fileNotFound) := by
        unfold remDirStep
        rw [if_pos hguard]
        exact renameDir_fail_dest fs x hguard.1 hF hFf
      rw [runList_cons_of_some _ _ _ _ _ _ hstep]
    · have hstep : remDirStep m fs x = (fs, none) := by
        unfold remDirStep
        rw [if_neg hguard]
      rw [runList_cons_of_none _ _ _ _ _ hstep]
      rcases List.mem_cons.mp hd with rfl | hd'
      · exact absurd ⟨hdr, hk, hne⟩ hguard
      · exact ih hd'


/-! ### String-level lemmas -/

theorem toNat_ofNat_valid (n : Nat) (h : n.isValidChar) :
    (Char.ofNat n).toNat = n := by
  unfold Char.ofNat
  rw [dif_pos h]
  unfold Char.ofNatAux Char.toNat
  simp [UInt32.toNat, UInt32.ofNatCore]

theorem charLower_not_upper (c : Char) :
    ¬(65 ≤ (charLower c).toNat ∧ (charLower c).toNat ≤ 90) := by
  unfold charLower
  split_ifs with h
  · have hv : (c.toNat + 32).isValidChar := Or.inl (by omega)
    rw [toNat_ofNat_valid _ hv]
    omega
  · exact h

theorem lowerStr_no_upper (s : Str) (c : Char) (hc : c ∈ lowerStr s) :
    ¬(65 ≤ c.toNat ∧ c.toNat ≤ 90) := by
  unfold lowerStr at hc
  rcases List.mem_map.mp hc with ⟨a, _, rfl⟩
  exact charLower_not_upper a

theorem lowerStr_ne_of_upper (s e : Str) (c : Char) (hce : c ∈ e)
    (hcu : 65 ≤ c.toNat ∧ c.toNat ≤ 90) : lowerStr s ≠ e := by
  intro h
  exact lowerStr_no_upper s c (h ▸ hce) hcu

theorem takeWhile_no_dot (tail : Str) (h : '.' ∉ tail) (rest : Str) :
    (tail.reverse ++ '.' :: rest).takeWhile (fun c => c ≠ '.') = tail.reverse := by
  have h1 : ∀ a ∈ tail.reverse, (fun c => decide (c ≠ '.')) a = true := by
    intro a ha
    rw [List.mem_reverse] at ha
    simp only [decide_eq_true_eq]
    exact fun hh => h (hh ▸ ha)
  rw [List.takeWhile_append_of_pos h1, List.takeWhile_cons_of_neg (by simp), List.append_nil]

theorem suffix_split (pre tail : Str) (hdot : '.' ∉ tail) :
    suffix (pre ++ '.' :: tail) =
      if pre = [] ∨ tail = [] then [] else '.' :: tail := by
  have hrev : (pre ++ '.' :: tail).reverse = tail.reverse ++ '.' :: pre.reverse := by
    simp
  have hpost : (pre ++ '.' :: tail).reverse.takeWhile (fun c => c ≠ '.')
      = tail.reverse := by
    rw [hrev]
    exact takeWhile_no_dot tail hdot pre.reverse
  have hmem : '.' ∈ pre ++ '.' :: tail :=
    List.mem_append_right _ (List.mem_cons_self _ _)
  simp only [suffix, hpost]
  by_cases hpre : pre = []
  · subst hpre
    rw [if_neg, if_pos (Or.inl rfl)]
    rintro ⟨-, -, hlen⟩
    simp at hlen
  · by_cases htail : tail = []
    · subst htail
      rw [if_neg, if_pos (Or.inr rfl)]
      rintro ⟨-, hne, -⟩
      simp at hne
    · rw [if_pos, if_neg]
      · simp
      · rintro (h | h)
        · exact hpre h
        · exact htail h
      · refine ⟨hmem, ?_, ?_⟩
        · simp [htail]
        · have : pre.length ≠ 0 := fun hh => hpre (List.length_eq_zero.mp hh)
          simp
          omega

theorem suffix_head_dot (name : Str) (h : suffix name ≠ []) :
    ∃ rest, suffix name = '.' :: rest := by
  simp only [suffix] at h ⊢
  split_ifs at h ⊢
  · exact ⟨_, rfl⟩
  · exact absurd rfl h

theorem suffix_hidden (rest : Str) (h : '.' ∉ rest) : suffix ('.' :: rest) = [] := by
  have := suffix_split [] rest h
  simpa using this


theorem ORG_disj : disjExts ORG_DIRECTORIES := by decide

theorem ORG_not_other : otherName ∉ keys ORG_DIRECTORIES := by decide

theorem ORG_not_folders : foldersName ∉ keys ORG_DIRECTORIES := by decide

theorem ORG_no_nil : ∀ p ∈ ORG_DIRECTORIES, ([] : Str) ∉ p.2 := by decide

theorem ORG_no_pptx : ∀ p ∈ ORG_DIRECTORIES, ((".pptx").data) ∉ p.2 := by decide

theorem ORG_no_svg : ∀ p ∈ ORG_DIRECTORIES, ((".svg").data) ∉ p.2 := by decide


/-! ### Further composition lemmas -/

theorem runList_append_id {α : Type} (step : FS → α → FS × Option Err)
    (l₁ l₂ : List α) (fs : FS)
    (h : ∀ fs' a, a ∈ l₁ → step fs' a = (fs', none)) :
    runList step fs (l₁ ++ l₂) = runList step fs l₂ := by
  induction l₁ with
  | nil => rfl
  | cons a rest ih =>
    rw [List.cons_append,
      runList_cons_of_none _ _ _ _ fs (h fs a (List.mem_cons_self a rest))]
    exact ih (fun fs' b hb => h fs' b (List.mem_cons_of_mem _ hb))

theorem runList_mkdir_id (l : List Str) (fs : FS)
    (h : ∀ k ∈ l, k ∈ fs.rootDirs) :
    runList mkdirExistOk fs l = (fs, none) := by
  induction l with
  | nil => rfl
  | cons d rest ih =>
    rw [runList_cons_of_none _ _ _ _ fs
      (by unfold mkdirExistOk; rw [if_pos (h d (List.mem_cons_self d rest))])]
    exact ih (fun k hk => h k (List.mem_cons_of_mem _ hk))

theorem processFile_files_sub (m : Mapping) (fs : FS) (f : Str) :
    (processFile m fs f).1.rootFiles ⊆ fs.rootFiles := by
  unfold processFile
  split_ifs
  · refine runList_preserve _ (fun s => s.rootFiles ⊆ fs.rootFiles) m fs
      (fun fs' p _ hx => ?_) (fun x hx => hx)
    unfold fileStep
    split_ifs
    · exact fun x hmem => hx (renameFile_files_sub fs' f p.1 hmem)
    · exact hx
  · exact fun x hx => hx

theorem organize_files_files_sub (m : Mapping) (fs : FS) :
    (organize_files m fs).1.rootFiles ⊆ fs.rootFiles :=
  runList_preserve _ (fun s => s.rootFiles ⊆ fs.rootFiles) _ fs
    (fun fs' f _ hx x hmem => hx (processFile_files_sub m fs' f hmem))
    (fun x hx => hx)

theorem remFiles_noop (l : List Str) (fs : FS)
    (h : ∀ g ∈ l, ¬(g ∈ fs.rootFiles ∧ suffix g ≠ [])) :
    runList remFileStep fs l = (fs, none) := by
  induction l with
  | nil => rfl
  | cons f rest ih =>
    rw [runList_cons_of_none _ _ _ _ fs
      (by unfold remFileStep; rw [if_neg (h f (List.mem_cons_self f rest))])]
    exact ih (fun g hg => h g (List.mem_cons_of_mem _ hg))

theorem disjExts_unique (m : Mapping) (hd : disjExts m) (pre post : Mapping)
    (c : Str) (l : List Str) (hm : m = pre ++ (c, l) :: post) (e : Str)
    (he : e ∈ l) : (∀ p ∈ pre, e ∉ p.2) ∧ (∀ p ∈ post, e ∉ p.2) := by
  induction pre generalizing m with
  | nil =>
    subst hm
    refine ⟨fun p hp => absurd hp (List.not_mem_nil p), fun p hp hmem => ?_⟩
    exact hd.1 p hp e he hmem
  | cons p0 pre' ih =>
    subst hm
    obtain ⟨hh, ht⟩ := hd
    obtain ⟨hpre', hpost⟩ := ih (pre' ++ (c, l) :: post) ht rfl
    refine ⟨fun p hp => ?_, hpost⟩
    rcases List.mem_cons.mp hp with rfl | hp'
    · intro hmem
      exact hh (c, l) (List.mem_append_right _ (List.mem_cons_self _ _)) e hmem he
    · exact hpre' p hp'

/-- A synthetic one-file target directory whose category folders exist. -/
def synthFS (f : Str) : FS :=
  ⟨[f], keys ORG_DIRECTORIES, fun _ => [], fun _ => []⟩

theorem organize_files_single (pre post : Mapping) (c1 : Str) (l1 : List Str)
    (f : Str) (rds : List Str)
    (hpre : ∀ p ∈ pre, lowerStr (suffix f) ∉ p.2)
    (hpost : ∀ p ∈ post, lowerStr (suffix f) ∉ p.2)
    (h1 : lowerStr (suffix f) ∈ l1) (hsuf : suffix f ≠ []) (hc1 : c1 ∈ rds) :
    (organize_files (pre ++ (c1, l1) :: post) (⟨[f], rds, fun _ => [], fun _ => []⟩ : FS)).2
        = none ∧
    (organize_files (pre ++ (c1, l1) :: post) (⟨[f], rds, fun _ => [], fun _ => []⟩ : FS)).1.subFiles c1
        = [f] ∧
    (organize_files (pre ++ (c1, l1) :: post) (⟨[f], rds, fun _ => [], fun _ => []⟩ : FS)).1.rootFiles
        = [] ∧
    ∀ d, d ≠ c1 →
      (organize_files (pre ++ (c1, l1) :: post) (⟨[f], rds, fun _ => [], fun _ => []⟩ : FS)).1.subFiles d
        = [] := by
  have hmemf : f ∈ ([f] : List Str) := List.mem_cons_self f []
  have hstep : processFile (pre ++ (c1, l1) :: post)
      (⟨[f], rds, fun _ => [], fun _ => []⟩ : FS) f =
      ({ (⟨[f], rds, fun _ => [], fun _ => []⟩ : FS) with
          rootFiles := ([f] : List Str).erase f
          subFiles := updMap (fun _ => []) c1
            ((([] : List Str)).erase f ++ [f]) }, none) := by
    unfold processFile
    rw [if_pos ⟨hmemf, hsuf⟩]
    rw [runList_append_id _ pre _ _
      (fun fs' p hp => by unfold fileStep; rw [if_neg (hpre p hp)])]
    rw [runList_cons_of_none _ _ _ _ _
      (by unfold fileStep
          rw [if_pos h1]
          exact renameFile_eq (⟨[f], rds, fun _ => [], fun _ => []⟩ : FS) f c1 hmemf hc1)]
    rw [runList_id _ post
      (fun fs' p hp => by unfold fileStep; rw [if_neg (hpost p hp)]) _]
  have hrun : organize_files (pre ++ (c1, l1) :: post)
      (⟨[f], rds, fun _ => [], fun _ => []⟩ : FS) =
      ({ (⟨[f], rds, fun _ => [], fun _ => []⟩ : FS) with
          rootFiles := ([f] : List Str).erase f
          subFiles := updMap (fun _ => []) c1
            ((([] : List Str)).erase f ++ [f]) }, none) := by
    unfold organize_files
    rw [runList_cons_of_none _ _ _ _ _ hstep]
    rfl
  rw [hrun]
  refine ⟨rfl, ?_, List.erase_cons_head f [], ?_⟩
  · show updMap (fun _ => []) c1 ((([] : List Str)).erase f ++ [f]) c1 = [f]
    unfold updMap
    rw [if_pos rfl]
    rfl
  · intro d hdc
    show updMap (fun _ => []) c1 ((([] : List Str)).erase f ++ [f]) d = []
    unfold updMap
    rw [if_neg hdc]

theorem andThen_none (fs : FS) (k : FS → FS × Option Err) :
    andThen (fs, none) k = k fs := rfl

theorem andThen_some (fs : FS) (e : Err) (k : FS → FS × Option Err) :
    andThen (fs, some e) k = (fs, some e) := rfl

theorem organize_keep_noext (m : Mapping) (fs : FS) (g : Str)
    (hg : g ∈ fs.rootFiles) (hs : suffix g = []) :
    g ∈ (organize m fs).1.rootFiles := by
  unfold organize
  rcases h1 : create_folders m fs with ⟨fs1, e1⟩
  have hg1 : g ∈ fs1.rootFiles := by
    have heq := create_folders_rootFiles m fs
    rw [h1] at heq
    rw [heq]
    exact hg
  cases e1 with
  | some e => simp only [andThen_some]; exact hg1
  | none =>
    simp only [andThen_none]
    rcases h2 : organize_files m fs1 with ⟨fs2, e2⟩
    have hg2 : g ∈ fs2.rootFiles := by
      have := organize_files_keep m fs1 g hg1 (Or.inl hs)
      rw [h2] at this
      exact this
    cases e2 with
    | some e => simp only [andThen_some]; exact hg2
    | none =>
      simp only [andThen_none]
      rcases h3 : organize_remaining_files fs2 with ⟨fs3, e3⟩
      have hg3 : g ∈ fs3.rootFiles := by
        have := remFiles_keep fs2 g hg2 hs
        rw [h3] at this
        exact this
      cases e3 with
      | some e => simp only [andThen_some]; exact hg3
      | none =>
        simp only [andThen_none]
        have heq := remDirs_rootFiles m fs3
        rw [heq]
        exact hg3

theorem isAbsolute_append (home rest : Str) (h : isAbsolute home) :
    isAbsolute (home ++ rest) := by
  unfold isAbsolute at *
  cases home with
  | nil => simp at h
  | cons c hs => simpa using h

/-! ### Concrete fixtures used by witnesses and counterexamples -/

/-- An empty target directory. -/
def fsEmpty : FS := ⟨[], [], fun _ => [], fun _ => []⟩

/-- A target directory holding only the extensionless file `README`. -/
def fsReadme : FS := ⟨[(("README").data)], [], fun _ => [], fun _ => []⟩

/-- A target directory holding only the dotfile `.bashrc`. -/
def fsBash : FS := ⟨['.' :: (("bashrc").data)], [], fun _ => [], fun _ => []⟩

/-- A target directory with an unmatched file and both sweep folders. -/
def fsOther : FS :=
  ⟨[(("mystery.xyz").data)], [otherName, foldersName], fun _ => [], fun _ => []⟩

/-- A target directory with an unmatched file and no sweep folders. -/
def fsNoOther : FS := ⟨[(("mystery.xyz").data)], [], fun _ => [], fun _ => []⟩

/-- A target directory with one loose subdirectory and no sweep folders. -/
def fsNoFolders : FS := ⟨[], [(("MyProject").data)], fun _ => [], fun _ => []⟩

/-- A mapping listing the same extension under two distinct categories. -/
def dupMap : Mapping :=
  [((("A").data), [((".dup").data)]), ((("B").data), [((".dup").data)])]

/-- A one-file directory with both of `dupMap`'s category folders present. -/
def fsDup : FS :=
  ⟨[(("f.dup").data)], [(("A").data), (("B").data)], fun _ => [], fun _ => []⟩

/-! ### Claims -/

/-- Claim C7: `create_folders` is idempotent — after a successful run over
any target directory and mapping, running it again returns the very same
state (so the same set of category subdirectories) and raises no error on
the pre-existing folders. -/
theorem claim_C7 (m : Mapping) (fs fs' : FS)
    (h : create_folders m fs = (fs', none)) :
    create_folders m fs' = (fs', none) := by
  have h2 : (create_folders m fs).2 = none := by rw [h]
  have hkeys : ∀ k ∈ keys m, k ∈ fs'.rootDirs := by
    have := create_folders_keys m fs h2
    rw [h] at this
    exact this
  unfold create_folders
  exact runList_mkdir_id (keys m) fs' hkeys

/-- Claim C7 witness: the double run on an empty directory with the default
mapping. -/
theorem claim_C7_witness :
    create_folders ORG_DIRECTORIES (create_folders ORG_DIRECTORIES fsEmpty).1 =
      ((create_folders ORG_DIRECTORIES fsEmpty).1, none) :=
  claim_C7 ORG_DIRECTORIES fsEmpty _ rfl

/-- A tiny user database for the concrete runs: only `root` is known. -/
def demoUserHome : Str → Option Str :=
  fun u => if u = (("root").data) then some (("/root").data) else none

/-- Claim C6 counterexample: the relative path `foo` is stored unchanged
by construction and is not absolute, contradicting the claim that every
supplied target value is normalized to an absolute path. -/
theorem claim_C6_counterexample :
    initTarget (("/home/user").data) (fun _ => none)
        (some (("foo").data)) = some (("foo").data) ∧
    ¬ isAbsolute (("foo").data) :=
  ⟨rfl, by decide⟩

/-- Claim C6 amended: construction applies `expanduser` once and stores
the result, never re-resolving it.  The default `~/Downloads` — and any
value whose first component is a bare `~` — expands through the home
directory and is absolute when the home is; a `~user` value expands
through the named user's home when the user is known and propagates
Python's RuntimeError (modelled as `none`) when it is not; and any value
not beginning with `~` is stored verbatim, so a relative path such as
`foo` remains relative rather than absolute. -/
theorem claim_C6 (home : Str) (userHome : Str → Option Str) (p : Str) :
    (isAbsolute home →
      initTarget home userHome none = some (home ++ (("/Downloads").data)) ∧
      isAbsolute (home ++ (("/Downloads").data))) ∧
    (isAbsolute home → p.head? = some '~' →
      p.tail.takeWhile (fun c => c ≠ '/') = [] →
      initTarget home userHome (some p) = some (home ++ p.tail) ∧
      isAbsolute (home ++ p.tail)) ∧
    (∀ h, p.head? = some '~' →
      p.tail.takeWhile (fun c => c ≠ '/') ≠ [] →
      userHome (p.tail.takeWhile (fun c => c ≠ '/')) = some h →
      initTarget home userHome (some p) =
        some (h ++ p.tail.dropWhile (fun c => c ≠ '/'))) ∧
    (p.head? = some '~' → p.tail.takeWhile (fun c => c ≠ '/') ≠ [] →
      userHome (p.tail.takeWhile (fun c => c ≠ '/')) = none →
      initTarget home userHome (some p) = none) ∧
    (p.head? ≠ some '~' → initTarget home userHome (some p) = some p) := by
  refine ⟨fun habs => ?_, fun habs h1 h2 => ?_,
    fun h hhead hcomp huser => ?_, fun hhead hcomp huser => ?_,
    fun hno => ?_⟩
  · constructor
    · show expanduser home userHome TARGET_DIR =
        some (home ++ (("/Downloads").data))
      unfold expanduser
      rw [if_pos (by decide), if_pos (by decide)]
      rfl
    · exact isAbsolute_append home _ habs
  · constructor
    · show expanduser home userHome p = some (home ++ p.tail)
      unfold expanduser
      rw [if_pos h1, if_pos h2]
    · exact isAbsolute_append home p.tail habs
  · show expanduser home userHome p =
      some (h ++ p.tail.dropWhile (fun c => c ≠ '/'))
    unfold expanduser
    rw [if_pos hhead, if_neg hcomp, huser]
  · show expanduser home userHome p = none
    unfold expanduser
    rw [if_pos hhead, if_neg hcomp, huser]
  · show expanduser home userHome p = some p
    unfold expanduser
    rw [if_neg hno]

/-- Claim C6 witness: under an absolute home the default target expands
to an absolute path, `~root/Downloads` expands through the user database,
and the relative input `foo` is stored verbatim. -/
theorem claim_C6_witness :
    initTarget (("/home/user").data) demoUserHome none =
      some ((("/home/user").data) ++ (("/Downloads").data)) ∧
    initTarget (("/home/user").data) demoUserHome
        (some (("~root/Downloads").data)) =
      some ((("/root").data) ++
        ((("~root/Downloads").data).tail.dropWhile (fun c => c ≠ '/'))) ∧
    initTarget (("/home/user").data) demoUserHome (some (("foo").data)) =
      some (("foo").data) := by
  refine ⟨((claim_C6 (("/home/user").data) demoUserHome
    (("foo").data)).1 (by decide)).1, ?_, ?_⟩
  · exact (claim_C6 (("/home/user").data) demoUserHome
      (("~root/Downloads").data)).2.2.1 (("/root").data) (by decide)
      (by decide) (by decide)
  · exact (claim_C6 (("/home/user").data) demoUserHome
      (("foo").data)).2.2.2.2 (by decide)

/-- Claim C10: lowercasing is applied only to the file's suffix, so a
mapping entry containing an uppercase ASCII letter can never equal any
file's lowercased suffix, and `organize_files` over a mapping whose only
entry list holds such a string moves nothing and raises nothing. -/
theorem claim_C10 (e : Str) (c : Char) (hce : c ∈ e)
    (hcu : 65 ≤ c.toNat ∧ c.toNat ≤ 90) :
    (∀ name : Str, lowerStr (suffix name) ≠ e) ∧
    (∀ (fs : FS) (cat : Str), organize_files [(cat, [e])] fs = (fs, none)) := by
  have hne : ∀ name : Str, lowerStr (suffix name) ≠ e :=
    fun name => lowerStr_ne_of_upper (suffix name) e c hce hcu
  refine ⟨hne, fun fs cat => ?_⟩
  unfold organize_files
  apply runList_id
  intro fs' f hf
  unfold processFile
  split_ifs with hguard
  · exact runList_id (fileStep f) [(cat, [e])]
      (fun fs'' p hp => by
        unfold fileStep
        rw [if_neg (fun hmem => hne f (by
          have hp' : p = (cat, [e]) := List.mem_singleton.mp hp
          rw [hp'] at hmem
          exact List.mem_singleton.mp hmem))]) fs'
  · rfl

/-- Claim C10 witness: the entry `.JPG` matches no file, and a mapping
carrying only `.JPG` leaves an empty directory untouched. -/
theorem claim_C10_witness :
    lowerStr (suffix (("photo.jpg").data)) ≠ ((".JPG").data) ∧
    organize_files [((("X").data), [((".JPG").data)])] fsEmpty =
      (fsEmpty, none) :=
  ⟨(claim_C10 ((".JPG").data) 'J' (by decide) (by decide)).1 (("photo.jpg").data),
   (claim_C10 ((".JPG").data) 'J' (by decide) (by decide)).2 fsEmpty (("X").data)⟩

/-- Claim C9: a file whose name starts with a dot and has no further dot
has an empty suffix, and stays among the target directory's files across
`organize_files`, `organize_remaining_files`, and the whole `organize`
pipeline. -/
theorem claim_C9 (rest : Str) (hdot : '.' ∉ rest) (m : Mapping) (fs : FS)
    (hg : ('.' :: rest) ∈ fs.rootFiles) :
    suffix ('.' :: rest) = [] ∧
    ('.' :: rest) ∈ (organize_files m fs).1.rootFiles ∧
    ('.' :: rest) ∈ (organize_remaining_files fs).1.rootFiles ∧
    ('.' :: rest) ∈ (organize m fs).1.rootFiles := by
  have hs : suffix ('.' :: rest) = [] := suffix_hidden rest hdot
  exact ⟨hs, organize_files_keep m fs _ hg (Or.inl hs),
    remFiles_keep fs _ hg hs, organize_keep_noext m fs _ hg hs⟩

/-- Claim C9 witness: `.bashrc` in a one-file directory under the default
mapping. -/
theorem claim_C9_witness :
    suffix ('.' :: (("bashrc").data)) = [] ∧
    ('.' :: (("bashrc").data)) ∈
      (organize_files ORG_DIRECTORIES fsBash).1.rootFiles ∧
    ('.' :: (("bashrc").data)) ∈
      (organize_remaining_files fsBash).1.rootFiles ∧
    ('.' :: (("bashrc").data)) ∈ (organize ORG_DIRECTORIES fsBash).1.rootFiles :=
  claim_C9 (("bashrc").data) (by decide) ORG_DIRECTORIES fsBash (by decide)

/-- Claim C8: a regular file with an empty suffix that sits directly in the
target directory is still there after a completed `organize` run: none of
the four steps moves it. -/
theorem claim_C8 (m : Mapping) (fs fs' : FS) (f : Str)
    (hf : f ∈ fs.rootFiles) (hs : suffix f = [])
    (h : organize m fs = (fs', none)) : f ∈ fs'.rootFiles := by
  have := organize_keep_noext m fs f hf hs
  rw [h] at this
  exact this

/-- Claim C8 witness: `README` survives a full default run. -/
theorem claim_C8_witness :
    (("README").data) ∈ (organize ORG_DIRECTORIES fsReadme).1.rootFiles :=
  claim_C8 ORG_DIRECTORIES fsReadme _ (("README").data) (by decide) (by decide)
    rfl

/-- Heads other than the dot can never start a lowercased suffix: a
non-empty suffix always begins with `'.'`, which `lower` keeps. -/
theorem lowerStr_suffix_head_ne (name : Str) (c : Char) (hc : c ≠ '.')
    (rest' : Str) : lowerStr (suffix name) ≠ c :: rest' := by
  by_cases hnil : suffix name = []
  · rw [hnil]
    exact fun h => List.noConfusion h
  · obtain ⟨rest, heq⟩ := suffix_head_dot name hnil
    rw [heq]
    unfold lowerStr
    rw [List.map_cons]
    intro hcontr
    injection hcontr with h1 h2
    rw [show charLower '.' = '.' from by decide] at h1
    exact hc h1.symm

/-- Claim C3: the dotless default-table tokens `pptx` and `svg` are real
entries of the table, yet a file suffix is always dot-initial when
non-empty, so no lowercased suffix ever equals them, and any file whose
name ends in `.pptx` or `.svg` matches no category of the default
mapping. -/
theorem claim_C3 :
    ((("pptx").data) ∈ splitSp documentsRaw ∧
      (("svg").data) ∈ splitSp imagesRaw) ∧
    (∀ name : Str, suffix name ≠ [] → ∃ rest, suffix name = '.' :: rest) ∧
    (∀ name : Str, lowerStr (suffix name) ≠ (("pptx").data) ∧
      lowerStr (suffix name) ≠ (("svg").data)) ∧
    (∀ pre : Str, ∀ p ∈ ORG_DIRECTORIES,
      lowerStr (suffix (pre ++ ((".pptx").data))) ∉ p.2 ∧
      lowerStr (suffix (pre ++ ((".svg").data))) ∉ p.2) := by
  refine ⟨⟨by decide, by decide⟩, fun name => suffix_head_dot name,
    fun name => ?_, fun pre p hp => ?_⟩
  · constructor
    · rw [show (("pptx").data) = 'p' :: (("ptx").data) from rfl]
      exact lowerStr_suffix_head_ne name 'p' (by decide) _
    · rw [show (("svg").data) = 's' :: (("vg").data) from rfl]
      exact lowerStr_suffix_head_ne name 's' (by decide) _
  · constructor
    · rw [show ((".pptx").data) = '.' :: (("pptx").data) from rfl,
        suffix_split pre (("pptx").data) (by decide)]
      by_cases hpre : pre = []
      · rw [if_pos (Or.inl hpre)]
        exact fun hmem => ORG_no_nil p hp hmem
      · have hcond : ¬(pre = [] ∨ (("pptx").data) = ([] : Str)) := by
          rintro (h | h)
          · exact hpre h
          · exact List.noConfusion h
        rw [if_neg hcond]
        rw [show lowerStr ('.' :: (("pptx").data)) = ((".pptx").data) from by decide]
        exact ORG_no_pptx p hp
    · rw [show ((".svg").data) = '.' :: (("svg").data) from rfl,
        suffix_split pre (("svg").data) (by decide)]
      by_cases hpre : pre = []
      · rw [if_pos (Or.inl hpre)]
        exact fun hmem => ORG_no_nil p hp hmem
      · have hcond : ¬(pre = [] ∨ (("svg").data) = ([] : Str)) := by
          rintro (h | h)
          · exact hpre h
          · exact List.noConfusion h
        rw [if_neg hcond]
        rw [show lowerStr ('.' :: (("svg").data)) = ((".svg").data) from by decide]
        exact ORG_no_svg p hp

/-- Claim C3 witness: a concrete suffix is dot-initial; `slides.pptx`
matches neither the `pptx` token nor the Documents category. -/
theorem claim_C3_witness :
    (∃ rest, suffix (("a.txt").data) = '.' :: rest) ∧
    lowerStr (suffix (("slides.pptx").data)) ≠ (("pptx").data) ∧
    lowerStr (suffix ((("slides").data) ++ ((".pptx").data))) ∉
      splitSp documentsRaw :=
  ⟨claim_C3.2.1 (("a.txt").data) (by decide),
   (claim_C3.2.2.1 (("slides.pptx").data)).1,
   (claim_C3.2.2.2 (("slides").data)
     ((("Documents").data), splitSp documentsRaw) (by decide)).1⟩

/-- Claim C2 counterexample: with `.dup` listed under both `A` and `B`
(both folders present), `organize_files` does not complete without error —
it raises FileNotFoundError after having moved `f.dup` into `A`. -/
theorem claim_C2_counterexample :
    (organize_files dupMap fsDup).2 = some Err.fileNotFound ∧
    (organize_files dupMap fsDup).1.subFiles (("A").data) =
      [(("f.dup").data)] ∧
    (organize_files dupMap fsDup).1.subFiles (("B").data) = [] :=
  ⟨rfl, by decide, by decide⟩

/-- Claim C2 amended: when an extension is listed under two distinct
categories, `organize_files` moves the matching file exactly once, into
the category that appears first in iteration order — but it does not
complete without error: the loop has no `break`, so the second matching
category re-attempts the rename of the now-moved source and raises
FileNotFoundError. -/
theorem claim_C2 (pre mid post : Mapping) (c1 c2 : Str) (l1 l2 : List Str)
    (f : Str) (rds : List Str)
    (hpre : ∀ p ∈ pre, lowerStr (suffix f) ∉ p.2)
    (hmid : ∀ p ∈ mid, lowerStr (suffix f) ∉ p.2)
    (h1 : lowerStr (suffix f) ∈ l1) (h2 : lowerStr (suffix f) ∈ l2)
    (hsuf : suffix f ≠ []) (hc1 : c1 ∈ rds) :
    (organize_files (pre ++ (c1, l1) :: (mid ++ (c2, l2) :: post))
        (⟨[f], rds, fun _ => [], fun _ => []⟩ : FS)).2 =
      some Err.fileNotFound ∧
    (organize_files (pre ++ (c1, l1) :: (mid ++ (c2, l2) :: post))
        (⟨[f], rds, fun _ => [], fun _ => []⟩ : FS)).1.subFiles c1 = [f] ∧
    (organize_files (pre ++ (c1, l1) :: (mid ++ (c2, l2) :: post))
        (⟨[f], rds, fun _ => [], fun _ => []⟩ : FS)).1.rootFiles = [] ∧
    ∀ d, d ≠ c1 →
      (organize_files (pre ++ (c1, l1) :: (mid ++ (c2, l2) :: post))
        (⟨[f], rds, fun _ => [], fun _ => []⟩ : FS)).1.subFiles d = [] := by
  have hmemf : f ∈ ([f] : List Str) := List.mem_cons_self f []
  have hfM : f ∉ (([f] : List Str).erase f) := by
    rw [List.erase_cons_head]
    exact List.not_mem_nil f
  have hstep : processFile (pre ++ (c1, l1) :: (mid ++ (c2, l2) :: post))
      (⟨[f], rds, fun _ => [], fun _ => []⟩ : FS) f =
      ({ (⟨[f], rds, fun _ => [], fun _ => []⟩ : FS) with
          rootFiles := ([f] : List Str).erase f
          subFiles := updMap (fun _ => []) c1
            ((([] : List Str)).erase f ++ [f]) }, some Err.fileNotFound) := by
    unfold processFile
    rw [if_pos ⟨hmemf, hsuf⟩]
    rw [runList_append_id (fileStep f) pre _ _
      (fun fs' p hp => by unfold fileStep; rw [if_neg (hpre p hp)])]
    rw [runList_cons_of_none _ _ _ _ _
      (by unfold fileStep
          rw [if_pos h1]
          exact renameFile_eq (⟨[f], rds, fun _ => [], fun _ => []⟩ : FS) f c1
            hmemf hc1)]
    rw [runList_append_id (fileStep f) mid _ _
      (fun fs' p hp => by unfold fileStep; rw [if_neg (hmid p hp)])]
    rw [runList_cons_of_some _ _ _ _ _ _
      (by unfold fileStep
          rw [if_pos h2]
          exact renameFile_fail_src _ f c2 hfM)]
  have hrun : organize_files (pre ++ (c1, l1) :: (mid ++ (c2, l2) :: post))
      (⟨[f], rds, fun _ => [], fun _ => []⟩ : FS) =
      ({ (⟨[f], rds, fun _ => [], fun _ => []⟩ : FS) with
          rootFiles := ([f] : List Str).erase f
          subFiles := updMap (fun _ => []) c1
            ((([] : List Str)).erase f ++ [f]) }, some Err.fileNotFound) := by
    unfold organize_files
    rw [runList_cons_of_some _ _ _ _ _ _ hstep]
  rw [hrun]
  refine ⟨rfl, ?_, List.erase_cons_head f [], ?_⟩
  · show updMap (fun _ => []) c1 ((([] : List Str)).erase f ++ [f]) c1 = [f]
    unfold updMap
    rw [if_pos rfl]
    rfl
  · intro d hdc
    show updMap (fun _ => []) c1 ((([] : List Str)).erase f ++ [f]) d = []
    unfold updMap
    rw [if_neg hdc]

/-- Claim C2 witness: the amended behaviour on the concrete duplicate
mapping: `f.dup` sits in `A` only, and the run raised FileNotFoundError. -/
theorem claim_C2_witness :
    (organize_files dupMap fsDup).1.rootFiles = [] ∧
    (organize_files dupMap fsDup).1.subFiles (("X").data) = [] := by
  have h := claim_C2 [] [] [] (("A").data) (("B").data) [((".dup").data)]
    [((".dup").data)] (("f.dup").data)
    [(("A").data), (("B").data)]
    (fun p hp => absurd hp (List.not_mem_nil p))
    (fun p hp => absurd hp (List.not_mem_nil p))
    (by decide) (by decide) (by decide) (by decide)
  exact ⟨h.2.2.1, h.2.2.2 (("X").data) (by decide)⟩

/-- Claim C5: every dotted extension of the default table classifies a
synthetic file carrying any case-variant of that suffix into exactly the
category that lists it: the run raises nothing, the file (under its
original name) is in that category's folder, and every other folder is
empty. -/
theorem claim_C5 (cat : Str) (exts : List Str) (e v fname : Str)
    (hmem : (cat, exts) ∈ ORG_DIRECTORIES) (he : e ∈ exts)
    (hdot : ∃ r, e = '.' :: r) (hv : lowerStr v = e)
    (hsuf : suffix fname = v) :
    (organize_files ORG_DIRECTORIES (synthFS fname)).2 = none ∧
    (organize_files ORG_DIRECTORIES (synthFS fname)).1.subFiles cat =
      [fname] ∧
    (organize_files ORG_DIRECTORIES (synthFS fname)).1.rootFiles = [] ∧
    ∀ d, d ≠ cat →
      (organize_files ORG_DIRECTORIES (synthFS fname)).1.subFiles d = [] := by
  obtain ⟨r, hr⟩ := hdot
  have hsufne : suffix fname ≠ [] := by
    rw [hsuf]
    intro hveq
    rw [hveq, hr] at hv
    exact List.noConfusion hv
  have hlow : lowerStr (suffix fname) = e := by rw [hsuf, hv]
  obtain ⟨pre, post, hdec⟩ := List.append_of_mem hmem
  obtain ⟨hpre, hpost⟩ :=
    disjExts_unique ORG_DIRECTORIES ORG_disj pre post cat exts hdec e he
  have hkey : cat ∈ keys ORG_DIRECTORIES := List.mem_map_of_mem Prod.fst hmem
  have hsingle := organize_files_single pre post cat exts fname
    (keys ORG_DIRECTORIES)
    (fun p hp => by rw [hlow]; exact hpre p hp)
    (fun p hp => by rw [hlow]; exact hpost p hp)
    (by rw [hlow]; exact he) hsufne hkey
  rw [hdec]
  exact hsingle

/-- Claim C5 witness: `photo.JPG` lands in `Images` and nowhere else. -/
theorem claim_C5_witness :
    (organize_files ORG_DIRECTORIES (synthFS (("photo.JPG").data))).2 =
      none ∧
    (organize_files ORG_DIRECTORIES
      (synthFS (("photo.JPG").data))).1.subFiles (("Images").data) =
      [(("photo.JPG").data)] ∧
    (organize_files ORG_DIRECTORIES
      (synthFS (("photo.JPG").data))).1.rootFiles = [] ∧
    (organize_files ORG_DIRECTORIES
      (synthFS (("photo.JPG").data))).1.subFiles (("Documents").data) = [] := by
  have h := claim_C5 (("Images").data) (splitSp imagesRaw) ((".jpg").data)
    ((".JPG").data) (("photo.JPG").data) (by decide) (by decide)
    ⟨(("jpg").data), by decide⟩ (by decide) (by decide)
  exact ⟨h.1, h.2.1, h.2.2.1, h.2.2.2 (("Documents").data) (by decide)⟩

/-- Claim C1 counterexample: on a directory holding only the unmatched
file `mystery.xyz` with `Other` (and `FOLDERS`) pre-existing, a full
`organize` run completes, yet `Other` is no longer directly under the
target: the folder sweep moved `Other` itself into `FOLDERS`, so the file
sits at `FOLDERS/Other/mystery.xyz`, not in an `Other` directly under the
target directory. -/
theorem claim_C1_counterexample :
    (organize ORG_DIRECTORIES fsOther).2 = none ∧
    otherName ∉ (organize ORG_DIRECTORIES fsOther).1.rootDirs ∧
    (("mystery.xyz").data) ∈
      (organize ORG_DIRECTORIES fsOther).1.subFiles otherName ∧
    otherName ∈ (organize ORG_DIRECTORIES fsOther).1.subDirs foldersName :=
  ⟨rfl, by decide, by decide, by decide⟩

/-- Claim C1 amended: after a completed `organize` run with the default
mapping over a directory whose `Other` folder pre-exists, an unmatched
file with a non-empty suffix is inside the `Other` directory — but
`Other` itself has been swept into `FOLDERS` by the final step, so it is
no longer directly under the target directory. -/
theorem claim_C1 (fs fs' : FS) (f : Str)
    (hf : f ∈ fs.rootFiles) (hsuf : suffix f ≠ [])
    (hno : ∀ p ∈ ORG_DIRECTORIES, lowerStr (suffix f) ∉ p.2)
    (hO : otherName ∈ fs.rootDirs) (hnd : fs.rootDirs.Nodup)
    (h : organize ORG_DIRECTORIES fs = (fs', none)) :
    f ∈ fs'.subFiles otherName ∧ otherName ∉ fs'.rootDirs ∧
    otherName ∈ fs'.subDirs foldersName := by
  unfold organize at h
  rcases h1 : create_folders ORG_DIRECTORIES fs with ⟨fs1, e1⟩
  rw [h1] at h
  cases e1 with
  | some e => simp [andThen_some] at h
  | none =>
    simp only [andThen_none] at h
    have hrf1 : fs1.rootFiles = fs.rootFiles := by
      have := create_folders_rootFiles ORG_DIRECTORIES fs
      rw [h1] at this
      exact this
    have hO1 : otherName ∈ fs1.rootDirs := by
      have := create_folders_dirs_mono ORG_DIRECTORIES fs otherName hO
      rw [h1] at this
      exact this
    have hnd1 : fs1.rootDirs.Nodup := by
      have := create_folders_nodup ORG_DIRECTORIES fs hnd
      rw [h1] at this
      exact this
    rcases h2 : organize_files ORG_DIRECTORIES fs1 with ⟨fs2, e2⟩
    rw [h2] at h
    cases e2 with
    | some e => simp [andThen_some] at h
    | none =>
      simp only [andThen_none] at h
      have hf2 : f ∈ fs2.rootFiles := by
        have := organize_files_keep ORG_DIRECTORIES fs1 f
          (by rw [hrf1]; exact hf) (Or.inr hno)
        rw [h2] at this
        exact this
      have hdirs2 : fs2.rootDirs = fs1.rootDirs := by
        have := organize_files_rootDirs ORG_DIRECTORIES fs1
        rw [h2] at this
        exact this
      have hO2 : otherName ∈ fs2.rootDirs := hdirs2 ▸ hO1
      rcases h3 : organize_remaining_files fs2 with ⟨fs3, e3⟩
      rw [h3] at h
      cases e3 with
      | some e => simp [andThen_some] at h
      | none =>
        simp only [andThen_none] at h
        have hfO3 : f ∈ fs3.subFiles otherName := by
          have := remFiles_mem fs2 hO2 f hf2 hsuf
          rw [h3] at this
          exact this
        have hdirs3 : fs3.rootDirs = fs2.rootDirs := by
          have := remFiles_rootDirs fs2
          rw [h3] at this
          exact this
        have hO3 : otherName ∈ fs3.rootDirs := hdirs3 ▸ hO2
        have hnd3 : fs3.rootDirs.Nodup := by
          rw [hdirs3, hdirs2]
          exact hnd1
        have hsubeq : fs'.subFiles = fs3.subFiles := by
          have := remDirs_subFiles ORG_DIRECTORIES fs3
          rw [h] at this
          exact this
        have h2none : (organize_remaining_folders ORG_DIRECTORIES fs3).2 = none := by
          rw [h]
        have hrem := organize_remaining_folders_remove ORG_DIRECTORIES fs3
          otherName hnd3 hO3 ORG_not_other (by decide) h2none
        rw [h] at hrem
        exact ⟨hsubeq ▸ hfO3, hrem.1, hrem.2⟩

/-- Claim C1 witness: the concrete run on `fsOther`. -/
theorem claim_C1_witness :
    (("mystery.xyz").data) ∈
      (organize ORG_DIRECTORIES fsOther).1.subFiles otherName ∧
    otherName ∉ (organize ORG_DIRECTORIES fsOther).1.rootDirs :=
  have h := claim_C1 fsOther _ (("mystery.xyz").data) (by decide) (by decide)
    (by decide) (by decide) (by decide) rfl
  ⟨h.1, h.2.1⟩

/-- Claim C4: `create_folders` with the default mapping never creates
`Other` or `FOLDERS`; and a first `organize` run over a directory where
those names do not pre-exist at all (no directory and no file of either
name) fails with FileNotFoundError — at the file sweep when an unmatched
suffixed file must move into the missing `Other`, and at the folder sweep
when a loose subdirectory must move into the missing `FOLDERS`.  (A
regular file named `Other`/`FOLDERS` would instead give ENOTDIR, which
is why both absences are hypotheses.) -/
theorem claim_C4 (fs : FS) :
    ((otherName ∉ fs.rootDirs →
        otherName ∉ (create_folders ORG_DIRECTORIES fs).1.rootDirs) ∧
      (foldersName ∉ fs.rootDirs →
        foldersName ∉ (create_folders ORG_DIRECTORIES fs).1.rootDirs)) ∧
    (∀ f, f ∈ fs.rootFiles → suffix f ≠ [] →
      (∀ p ∈ ORG_DIRECTORIES, lowerStr (suffix f) ∉ p.2) →
      otherName ∉ fs.rootDirs → otherName ∉ fs.rootFiles →
      (∀ k ∈ keys ORG_DIRECTORIES, k ∉ fs.rootFiles) →
      (organize ORG_DIRECTORIES fs).2 = some Err.fileNotFound) ∧
    (∀ d, d ∈ fs.rootDirs → d ∉ keys ORG_DIRECTORIES → d ≠ foldersName →
      foldersName ∉ fs.rootDirs → foldersName ∉ fs.rootFiles →
      (∀ g ∈ fs.rootFiles, suffix g = []) →
      (∀ k ∈ keys ORG_DIRECTORIES, k ∉ fs.rootFiles) →
      (organize ORG_DIRECTORIES fs).2 = some Err.fileNotFound) := by
  refine ⟨⟨fun hnot hmem => ?_, fun hnot hmem => ?_⟩, ?_, ?_⟩
  · rcases create_folders_dirs_sub ORG_DIRECTORIES fs otherName hmem with h | h
    · exact hnot h
    · exact ORG_not_other h
  · rcases create_folders_dirs_sub ORG_DIRECTORIES fs foldersName hmem with h | h
    · exact hnot h
    · exact ORG_not_folders h
  · intro f hf hsuf hno hO hOf hkf
    unfold organize
    rcases h1 : create_folders ORG_DIRECTORIES fs with ⟨fs1, e1⟩
    have he1 : e1 = none := by
      have := create_folders_ok ORG_DIRECTORIES fs hkf
      rw [h1] at this
      exact this
    subst he1
    simp only [andThen_none]
    have hrf1 : fs1.rootFiles = fs.rootFiles := by
      have := create_folders_rootFiles ORG_DIRECTORIES fs
      rw [h1] at this
      exact this
    have hkeys1 : ∀ p ∈ ORG_DIRECTORIES, p.1 ∈ fs1.rootDirs := by
      intro p hp
      have hc := create_folders_keys ORG_DIRECTORIES fs (by rw [h1])
      have := hc p.1 (List.mem_map_of_mem Prod.fst hp)
      rw [h1] at this
      exact this
    have hO1 : otherName ∉ fs1.rootDirs := by
      intro hmem
      have hm' : otherName ∈ (create_folders ORG_DIRECTORIES fs).1.rootDirs := by
        rw [h1]
        exact hmem
      rcases create_folders_dirs_sub ORG_DIRECTORIES fs otherName hm' with h | h
      · exact hO h
      · exact ORG_not_other h
    rcases h2 : organize_files ORG_DIRECTORIES fs1 with ⟨fs2, e2⟩
    have he2 : e2 = none := by
      have := organize_files_ok ORG_DIRECTORIES fs1 ORG_disj hkeys1
      rw [h2] at this
      exact this
    subst he2
    simp only [andThen_none]
    have hf2 : f ∈ fs2.rootFiles := by
      have := organize_files_keep ORG_DIRECTORIES fs1 f
        (by rw [hrf1]; exact hf) (Or.inr hno)
      rw [h2] at this
      exact this
    have hO2 : otherName ∉ fs2.rootDirs := by
      have := organize_files_rootDirs ORG_DIRECTORIES fs1
      rw [h2] at this
      rw [this]
      exact hO1
    have hO2f : otherName ∉ fs2.rootFiles := by
      intro hmem
      have := organize_files_files_sub ORG_DIRECTORIES fs1
      rw [h2] at this
      have := this hmem
      rw [hrf1] at this
      exact hOf this
    have h3 : (organize_remaining_files fs2).2 = some Err.fileNotFound :=
      remFiles_fail fs2.rootFiles fs2 hO2 hO2f f hf2 hf2 hsuf
    rcases h3' : organize_remaining_files fs2 with ⟨fs3, e3⟩
    rw [h3'] at h3
    cases h3
    simp only [andThen_some]
  · intro d hd hdk hdF hF hFf hgs hkf
    unfold organize
    rcases h1 : create_folders ORG_DIRECTORIES fs with ⟨fs1, e1⟩
    have he1 : e1 = none := by
      have := create_folders_ok ORG_DIRECTORIES fs hkf
      rw [h1] at this
      exact this
    subst he1
    simp only [andThen_none]
    have hrf1 : fs1.rootFiles = fs.rootFiles := by
      have := create_folders_rootFiles ORG_DIRECTORIES fs
      rw [h1] at this
      exact this
    have hkeys1 : ∀ p ∈ ORG_DIRECTORIES, p.1 ∈ fs1.rootDirs := by
      intro p hp
      have hc := create_folders_keys ORG_DIRECTORIES fs (by rw [h1])
      have := hc p.1 (List.mem_map_of_mem Prod.fst hp)
      rw [h1] at this
      exact this
    have hd1 : d ∈ fs1.rootDirs := by
      have := create_folders_dirs_mono ORG_DIRECTORIES fs d hd
      rw [h1] at this
      exact this
    have hF1 : foldersName ∉ fs1.rootDirs := by
      intro hmem
      have hm' : foldersName ∈ (create_folders ORG_DIRECTORIES fs).1.rootDirs := by
        rw [h1]
        exact hmem
      rcases create_folders_dirs_sub ORG_DIRECTORIES fs foldersName hm' with h | h
      · exact hF h
      · exact ORG_not_folders h
    rcases h2 : organize_files ORG_DIRECTORIES fs1 with ⟨fs2, e2⟩
    have he2 : e2 = none := by
      have := organize_files_ok ORG_DIRECTORIES fs1 ORG_disj hkeys1
      rw [h2] at this
      exact this
    subst he2
    simp only [andThen_none]
    have hdirs2 : fs2.rootDirs = fs1.rootDirs := by
      have := organize_files_rootDirs ORG_DIRECTORIES fs1
      rw [h2] at this
      exact this
    have hsub2 : fs2.rootFiles ⊆ fs.rootFiles := by
      have := organize_files_files_sub ORG_DIRECTORIES fs1
      rw [h2] at this
      intro x hx
      rw [← hrf1]
      exact this hx
    have h3 : organize_remaining_files fs2 = (fs2, none) := by
      unfold organize_remaining_files
      refine remFiles_noop fs2.rootFiles fs2 (fun g hg hand => ?_)
      exact hand.2 (hgs g (hsub2 hand.1))
    rw [h3]
    simp only [andThen_none]
    have hd2 : d ∈ fs2.rootDirs := by
      rw [hdirs2]
      exact hd1
    have hF2 : foldersName ∉ fs2.rootDirs := by
      rw [hdirs2]
      exact hF1
    have hF2f : foldersName ∉ fs2.rootFiles := fun hmem => hFf (hsub2 hmem)
    exact remDirs_fail ORG_DIRECTORIES fs2.rootDirs fs2 hF2 hF2f d hd2 hd2
      hdk hdF

/-- Claim C4 witness: the concrete first runs. -/
theorem claim_C4_witness :
    otherName ∉ (create_folders ORG_DIRECTORIES fsNoOther).1.rootDirs ∧
    (organize ORG_DIRECTORIES fsNoOther).2 = some Err.fileNotFound ∧
    (organize ORG_DIRECTORIES fsNoFolders).2 = some Err.fileNotFound := by
  refine ⟨(claim_C4 fsNoOther).1.1 (by decide), ?_, ?_⟩
  · exact (claim_C4 fsNoOther).2.1 (("mystery.xyz").data) (by decide) (by decide)
      (by decide) (by decide) (by decide) (by decide)
  · exact (claim_C4 fsNoFolders).2.2 (("MyProject").data) (by decide) (by decide)
      (by decide) (by decide) (by decide) (by decide) (by decide)

end Org
